import Mathlib

/-!
Verification development for the NinjaTools oscilloscope screenshot client
(`osc/osc.py`).  The Python source is shallowly embedded: bytes are `Nat`,
byte strings are `List Nat`, text is `List Char` or `String`, and the TCP
socket is modelled as the total sequence of bytes the peer will deliver
before closing, together with a chunking schedule `sched : Nat → Nat` that
says how many bytes the kernel hands over on the i-th `recv` call (clamped
to at least 1, to the requested size, and to what is still available, which
is exactly the set of behaviours a blocking TCP `recv` can show; a `recv`
on an exhausted stream returns the empty chunk, i.e. the peer closed).
-/

namespace NinjaTools

/-- One bounded receive-accumulate loop, shared shape of the three loops in
`OscilloscopeCapture.get_screenshot`:
`while len(buf) < target: chunk = sock.recv(min(cap, target - len(buf)))`,
`if not chunk: raise Exception(err)`, `buf += chunk`.
`r` is the number of bytes still missing, `data` the bytes the peer will
still deliver, `i` the index of the next `recv` call in the schedule.
Returns the bytes received, the bytes left in the stream and the next call
index. -/
def recvLoop (sched : Nat → Nat) (cap : Nat) (hcap : 0 < cap) (err : String)
    (i : Nat) (data : List Nat) (r : Nat) :
    Except String (List Nat × List Nat × Nat) :=
  match r, data with
  | 0, d => .ok ([], d, i)
  | _ + 1, [] => .error err
  | rr + 1, b :: rest =>
    let n := min (min (rr + 1) cap) (min (max (sched i) 1) (rest.length + 1))
    match recvLoop sched cap hcap err (i + 1) ((b :: rest).drop n) (rr + 1 - n) with
    | .ok (more, rem, j) => .ok ((b :: rest).take n ++ more, rem, j)
    | .error e => .error e
termination_by r
decreasing_by omega

/-- If the stream still holds at least `r` bytes, the loop succeeds and
returns exactly the next `r` bytes of the stream, for every schedule. -/
theorem recvLoop_exact (sched : Nat → Nat) (cap : Nat) (hcap : 0 < cap)
    (err : String) :
    ∀ r i data, r ≤ List.length data →
      ∃ j, recvLoop sched cap hcap err i data r =
        .ok (data.take r, data.drop r, j) := by
  intro r
  induction r using Nat.strong_induction_on with
  | _ r IH =>
    intro i data hlen
    match r, data with
    | 0, d =>
      exact ⟨i, by rw [recvLoop]; simp⟩
    | rr + 1, [] =>
      simp at hlen
    | rr + 1, b :: rest =>
      rw [recvLoop]
      set n := min (min (rr + 1) cap) (min (max (sched i) 1) (rest.length + 1)) with hn
      have hlen' : List.length (b :: rest) = rest.length + 1 := by simp
      have hnpos : 0 < n := by
        simp only [hn]
        omega
      have hnle : n ≤ rr + 1 := by simp only [hn]; omega
      have hnlen : n ≤ rest.length + 1 := by simp only [hn]; omega
      have hrec : rr + 1 - n ≤ List.length ((b :: rest).drop n) := by
        simp only [List.length_drop, hlen']
        omega
      obtain ⟨j, hj⟩ := IH (rr + 1 - n) (by omega) (i + 1) ((b :: rest).drop n) hrec
      refine ⟨j, ?_⟩
      rw [hj]
      have htake : (b :: rest).take n ++ ((b :: rest).drop n).take (rr + 1 - n) =
          (b :: rest).take (rr + 1) := by
        rw [← List.take_add]
        congr 1
        omega
      have hdrop : ((b :: rest).drop n).drop (rr + 1 - n) = (b :: rest).drop (rr + 1) := by
        rw [List.drop_drop]
        congr 1
        omega
      simp only [htake, hdrop]

/-- If the stream holds fewer than `r` bytes, the loop hits a zero-byte
receive (peer closed) and fails with `err`, for every schedule. -/
theorem recvLoop_closed (sched : Nat → Nat) (cap : Nat) (hcap : 0 < cap)
    (err : String) :
    ∀ r i data, List.length data < r →
      recvLoop sched cap hcap err i data r = .error err := by
  intro r
  induction r using Nat.strong_induction_on with
  | _ r IH =>
    intro i data hlen
    match r, data with
    | 0, d => simp at hlen
    | rr + 1, [] => rw [recvLoop]
    | rr + 1, b :: rest =>
      rw [recvLoop]
      set n := min (min (rr + 1) cap) (min (max (sched i) 1) (rest.length + 1)) with hn
      have hlen' : List.length (b :: rest) = rest.length + 1 := by simp
      have hnpos : 0 < n := by simp only [hn]; omega
      have hnlen : n ≤ rest.length + 1 := by simp only [hn]; omega
      have hlt : rr + 1 - n > List.length ((b :: rest).drop n) := by
        simp only [List.length_drop, hlen']
        simp only [List.length_cons] at hlen
        omega
      rw [IH (rr + 1 - n) (by omega) (i + 1) ((b :: rest).drop n) hlt]

/-- A receive loop that still needs bytes fails at once on an exhausted
stream (the peer has closed). -/
theorem recvLoop_nil (sched : Nat → Nat) (cap : Nat) (hcap : 0 < cap)
    (err : String) (i r : Nat) (hr : 0 < r) :
    recvLoop sched cap hcap err i [] r = .error err := by
  exact recvLoop_closed sched cap hcap err r i [] (by simpa using hr)

/-- Decimal value of a run of ASCII digit bytes, as Python's `int` computes
it for a plain digit string. -/
def digitsVal (bs : List Nat) : Nat :=
  bs.foldl (fun a b => a * 10 + (b - 48)) 0

/-- Is the byte an ASCII decimal digit (the only single characters below
U+0100 that Python's `int` accepts)? -/
def isDigitByte (b : Nat) : Bool :=
  decide (48 ≤ b) && decide (b ≤ 57)

/-- `int` applied to a nonempty all-digit byte run; `none` models the
`ValueError` on anything else. -/
def digitsVal? (bs : List Nat) : Option Nat :=
  if bs = [] then none
  else if bs.all isDigitByte then some (digitsVal bs) else none

/-- Python's `int(bs.decode())` on wire bytes: an optional ASCII sign
followed by a nonempty run of ASCII digits (whitespace/underscore forms of
`int` and non-ASCII decodes cannot be produced by a length field and both
sides of the model reject them). -/
def pyParseInt (bs : List Nat) : Option Int :=
  match bs with
  | [] => none
  | b :: rest =>
    if b = 43 then (digitsVal? rest).map Int.ofNat
    else if b = 45 then (digitsVal? rest).map (fun v => -(v : Int))
    else (digitsVal? bs).map Int.ofNat

theorem pyParseInt_digits (bs : List Nat) (hne : bs ≠ [])
    (hdig : ∀ b ∈ bs, 48 ≤ b ∧ b ≤ 57) :
    pyParseInt bs = some (Int.ofNat (digitsVal bs)) := by
  match bs with
  | [] => exact absurd rfl hne
  | b :: rest =>
    have hb := hdig b (List.mem_cons_self b rest)
    rw [pyParseInt]
    rw [if_neg (by omega), if_neg (by omega)]
    rw [digitsVal?, if_neg (by simp), if_pos]
    · rfl
    · rw [List.all_eq_true]
      intro x hx
      have := hdig x hx
      simp only [isDigitByte, Bool.and_eq_true, decide_eq_true_eq]
      omega

/-- The binary block frame reading step of `OscilloscopeCapture.get_screenshot`
(osc/osc.py lines 215–239): read a 2-byte header, check the `#` marker,
parse the single length-digit-count digit (`int(chr(header[1]))`, rejecting
`digit_count <= 0`), read that many length bytes, parse them as a decimal
integer, then read exactly that many payload bytes in receives capped at
4096 bytes.  `header.getD 1 0` stands for `header[1]`, which the loop
guarantees is present.  Returns the declared length, the payload and the
bytes left unread in the stream. -/
def readFrame (sched : Nat → Nat) (data : List Nat) :
    Except String (Int × List Nat × List Nat) :=
  match recvLoop sched 2 (by decide) "Connection closed before header" 0 data 2 with
  | .error e => .error e
  | .ok (header, data1, i1) =>
    if header.take 1 ≠ [35] then .error "Invalid response format (missing #)"
    else
      let h1 := header.getD 1 0
      if 48 ≤ h1 ∧ h1 ≤ 57 then
        if hdc : h1 - 48 = 0 then .error "Invalid length digit in header"
        else
          match recvLoop sched (h1 - 48) (Nat.pos_of_ne_zero hdc)
              "Connection closed before length" i1 data1 (h1 - 48) with
          | .error e => .error e
          | .ok (lenStr, data2, i2) =>
            match pyParseInt lenStr with
            | none => .error "ValueError: invalid literal for int() with base 10"
            | some L =>
              match recvLoop sched 4096 (by decide)
                  "Connection closed during image transfer" i2 data2 L.toNat with
              | .error e => .error e
              | .ok (image, rem, _) => .ok (L, image, rem)
      else .error "ValueError: invalid literal for int() with base 10"

/-- On a stream `#` `d` (as `48 + d`) + `d` digit bytes + `tail`, with
`tail` long enough, the frame reader succeeds and returns the declared
length and exactly that many payload bytes, for every chunking schedule. -/
theorem readFrame_valid (sched : Nat → Nat) (d : Nat) (lenDigits tail : List Nat)
    (hd1 : 1 ≤ d) (hd9 : d ≤ 9) (hlen : lenDigits.length = d)
    (hdig : ∀ b ∈ lenDigits, 48 ≤ b ∧ b ≤ 57)
    (htail : digitsVal lenDigits ≤ tail.length) :
    readFrame sched (35 :: (48 + d) :: (lenDigits ++ tail)) =
      .ok ((digitsVal lenDigits : Int), tail.take (digitsVal lenDigits),
        tail.drop (digitsVal lenDigits)) := by
  obtain ⟨j1, h1⟩ := recvLoop_exact sched 2 (by decide)
    "Connection closed before header" 2 0
    (35 :: (48 + d) :: (lenDigits ++ tail)) (by simp)
  have h1e : recvLoop sched 2 (by decide) "Connection closed before header" 0
      (35 :: (48 + d) :: (lenDigits ++ tail)) 2 =
      .ok ([35, 48 + d], lenDigits ++ tail, j1) := by
    rw [h1]
    rfl
  obtain ⟨j2, h2⟩ := recvLoop_exact sched d (by omega)
    "Connection closed before length" d j1 (lenDigits ++ tail)
    (by simp; omega)
  have h2e : recvLoop sched d (by omega) "Connection closed before length" j1
      (lenDigits ++ tail) d = .ok (lenDigits, tail, j2) := by
    rw [h2]
    have ht : (lenDigits ++ tail).take d = lenDigits := by
      rw [← hlen, List.take_left]
    have hd : (lenDigits ++ tail).drop d = tail := by
      rw [← hlen, List.drop_left]
    rw [ht, hd]
  obtain ⟨j3, h3⟩ := recvLoop_exact sched 4096 (by decide)
    "Connection closed during image transfer" (digitsVal lenDigits) j2 tail htail
  have hne : lenDigits ≠ [] := by
    intro h
    rw [h] at hlen
    simp at hlen
    omega
  simp only [readFrame, h1e]
  rw [if_neg (by simp)]
  simp only [List.getD_cons_succ, List.getD_cons_zero]
  rw [if_pos (by omega), dif_neg (by omega)]
  have hsub : 48 + d - 48 = d := by omega
  simp only [hsub, h2e, pyParseInt_digits lenDigits hne hdig]
  have htn : ((digitsVal lenDigits : Int)).toNat = digitsVal lenDigits := rfl
  simp only [Int.ofNat_eq_coe, htn, h3]

/-- On a stream that ends before the declared payload is complete (a valid
header and length, then too few payload bytes and the peer closes), the
frame reader fails with the connection-closed-during-transfer error, for
every chunking schedule. -/
theorem readFrame_truncated (sched : Nat → Nat) (d : Nat)
    (lenDigits tail : List Nat)
    (hd1 : 1 ≤ d) (hd9 : d ≤ 9) (hlen : lenDigits.length = d)
    (hdig : ∀ b ∈ lenDigits, 48 ≤ b ∧ b ≤ 57)
    (htail : tail.length < digitsVal lenDigits) :
    readFrame sched (35 :: (48 + d) :: (lenDigits ++ tail)) =
      .error "Connection closed during image transfer" := by
  obtain ⟨j1, h1⟩ := recvLoop_exact sched 2 (by decide)
    "Connection closed before header" 2 0
    (35 :: (48 + d) :: (lenDigits ++ tail)) (by simp)
  have h1e : recvLoop sched 2 (by decide) "Connection closed before header" 0
      (35 :: (48 + d) :: (lenDigits ++ tail)) 2 =
      .ok ([35, 48 + d], lenDigits ++ tail, j1) := by
    rw [h1]
    rfl
  obtain ⟨j2, h2⟩ := recvLoop_exact sched d (by omega)
    "Connection closed before length" d j1 (lenDigits ++ tail)
    (by simp; omega)
  have h2e : recvLoop sched d (by omega) "Connection closed before length" j1
      (lenDigits ++ tail) d = .ok (lenDigits, tail, j2) := by
    rw [h2]
    have ht : (lenDigits ++ tail).take d = lenDigits := by
      rw [← hlen, List.take_left]
    have hd : (lenDigits ++ tail).drop d = tail := by
      rw [← hlen, List.drop_left]
    rw [ht, hd]
  have h3 := recvLoop_closed sched 4096 (by decide)
    "Connection closed during image transfer" (digitsVal lenDigits) j2 tail htail
  have hne : lenDigits ≠ [] := by
    intro h
    rw [h] at hlen
    simp at hlen
    omega
  simp only [readFrame, h1e]
  rw [if_neg (by simp)]
  simp only [List.getD_cons_succ, List.getD_cons_zero]
  rw [if_pos (by omega), dif_neg (by omega)]
  have hsub : 48 + d - 48 = d := by omega
  simp only [hsub, h2e, pyParseInt_digits lenDigits hne hdig]
  have htn : ((digitsVal lenDigits : Int)).toNat = digitsVal lenDigits := rfl
  simp only [Int.ofNat_eq_coe, htn, h3]

/-- C1: For every valid binary block frame consisting of the marker byte
`#` (35), one ASCII digit `d` in 1–9 (byte `48 + d`), `d` decimal digits
encoding a length `L`, and `L` payload bytes, the frame-reading step of
`get_screenshot` yields a declared length equal to `L` and a payload of
exactly `L` bytes, and the result is identical for every way the transport
chunks those bytes across receive calls. -/
theorem claim_c1_frame_roundtrip (d : Nat) (lenDigits payload rest : List Nat)
    (hd1 : 1 ≤ d) (hd9 : d ≤ 9) (hlen : lenDigits.length = d)
    (hdig : ∀ b ∈ lenDigits, 48 ≤ b ∧ b ≤ 57)
    (hpay : payload.length = digitsVal lenDigits) :
    (∀ sched, readFrame sched (35 :: (48 + d) :: (lenDigits ++ (payload ++ rest))) =
      .ok ((digitsVal lenDigits : Int), payload, rest)) ∧
    (∀ g1 g2, readFrame g1 (35 :: (48 + d) :: (lenDigits ++ (payload ++ rest))) =
      readFrame g2 (35 :: (48 + d) :: (lenDigits ++ (payload ++ rest)))) := by
  have main : ∀ sched,
      readFrame sched (35 :: (48 + d) :: (lenDigits ++ (payload ++ rest))) =
        .ok ((digitsVal lenDigits : Int), payload, rest) := by
    intro sched
    have h := readFrame_valid sched d lenDigits (payload ++ rest) hd1 hd9 hlen hdig
      (by simp [← hpay])
    rw [h]
    have ht : (payload ++ rest).take (digitsVal lenDigits) = payload := by
      rw [← hpay, List.take_left]
    have hd2 : (payload ++ rest).drop (digitsVal lenDigits) = rest := by
      rw [← hpay, List.drop_left]
    rw [ht, hd2]
  exact ⟨main, fun g1 g2 => by rw [main g1, main g2]⟩

theorem claim_c1_frame_roundtrip_witness :
    (∀ sched, readFrame sched (35 :: (48 + 2) :: ([49, 48] ++ (List.replicate 10 7 ++ [9]))) =
      .ok ((digitsVal [49, 48] : Int), List.replicate 10 7, [9])) ∧
    (∀ g1 g2, readFrame g1 (35 :: (48 + 2) :: ([49, 48] ++ (List.replicate 10 7 ++ [9]))) =
      readFrame g2 (35 :: (48 + 2) :: ([49, 48] ++ (List.replicate 10 7 ++ [9])))) :=
  claim_c1_frame_roundtrip 2 [49, 48] (List.replicate 10 7) [9]
    (by decide) (by decide) (by decide) (by decide) (by decide)

/-- C2: Frame reading fails with the missing-marker error when the first
byte is not `#`; fails with the invalid-length-digit error when the second
byte is the digit `0` (48); and fails with the
connection-closed-during-transfer error whenever the stream ends (every
further receive returns zero bytes) before the declared number of payload
bytes has been delivered — each for every chunking schedule. -/
theorem claim_c2_frame_errors :
    (∀ sched b0 b1 rest, b0 ≠ 35 →
      readFrame sched (b0 :: b1 :: rest) =
        .error "Invalid response format (missing #)") ∧
    (∀ sched rest,
      readFrame sched (35 :: 48 :: rest) =
        .error "Invalid length digit in header") ∧
    (∀ sched d lenDigits delivered, 1 ≤ d → d ≤ 9 → lenDigits.length = d →
      (∀ b ∈ lenDigits, 48 ≤ b ∧ b ≤ 57) →
      delivered.length < digitsVal lenDigits →
      readFrame sched (35 :: (48 + d) :: (lenDigits ++ delivered)) =
        .error "Connection closed during image transfer") := by
  refine ⟨?_, ?_, ?_⟩
  · intro sched b0 b1 rest hb0
    obtain ⟨j1, h1⟩ := recvLoop_exact sched 2 (by decide)
      "Connection closed before header" 2 0 (b0 :: b1 :: rest) (by simp)
    have h1e : recvLoop sched 2 (by decide) "Connection closed before header" 0
        (b0 :: b1 :: rest) 2 = .ok ([b0, b1], rest, j1) := by
      rw [h1]
      rfl
    simp only [readFrame, h1e]
    rw [if_pos]
    simp only [List.take_succ_cons, List.take_zero, ne_eq, List.cons.injEq,
      and_true]
    exact hb0
  · intro sched rest
    obtain ⟨j1, h1⟩ := recvLoop_exact sched 2 (by decide)
      "Connection closed before header" 2 0 (35 :: 48 :: rest) (by simp)
    have h1e : recvLoop sched 2 (by decide) "Connection closed before header" 0
        (35 :: 48 :: rest) 2 = .ok ([35, 48], rest, j1) := by
      rw [h1]
      rfl
    simp only [readFrame, h1e]
    norm_num
  · intro sched d lenDigits delivered hd1 hd9 hlen hdig hshort
    exact readFrame_truncated sched d lenDigits delivered hd1 hd9 hlen hdig hshort

theorem claim_c2_frame_errors_witness :
    readFrame (fun _ => 1) (66 :: 49 :: []) =
      .error "Invalid response format (missing #)" ∧
    readFrame (fun _ => 2) (35 :: 48 :: [55]) =
      .error "Invalid length digit in header" ∧
    readFrame (fun _ => 3) (35 :: (48 + 1) :: ([53] ++ [1, 2])) =
      .error "Connection closed during image transfer" :=
  ⟨claim_c2_frame_errors.1 (fun _ => 1) 66 49 [] (by decide),
   claim_c2_frame_errors.2.1 (fun _ => 2) [55],
   claim_c2_frame_errors.2.2 (fun _ => 3) 1 [53] [1, 2]
     (by decide) (by decide) (by decide) (by decide) (by decide)⟩

/-- Lowercase an ASCII character, as Python's `str.lower` acts on the
ASCII range (all strings this client compares are ASCII). -/
def charLower (c : Char) : Char :=
  if 'A' ≤ c ∧ c ≤ 'Z' then Char.ofNat (c.toNat + 32) else c

/-- Python `s.lower()` for ASCII strings. -/
def lowerString (s : String) : String :=
  ⟨s.data.map charLower⟩

/-- `OscilloscopeCapture.get_screenshot_command` (osc/osc.py lines
197–205); `self.vendor` holds the constructor argument lowercased. -/
def get_screenshot_command (vendor : String) : String :=
  if vendor = "rigol" then ":DISPlay:DATA?"
  else if vendor = "keysight" then ":DISPlay:DATA? PNG"
  else if vendor = "tektronix" then "HARDCopy:PORT ETHernet"
  else ":DISPlay:DATA?"

/-- The SCPI commands `get_screenshot` sends during one capture for a
given (constructor-argument) vendor tag: the single
`send_command(self.get_screenshot_command())` call at osc/osc.py line 214
(`self.vendor = vendor.lower()` from `__init__`). -/
def captureCommands (vendor : String) : List String :=
  [get_screenshot_command (lowerString vendor)]

/-- C3 as stated is false on the code: for the Tektronix vendor tag the
capture sends only the Ethernet hardcopy-port configuration command and
never sends the generic display-data query afterwards. -/
theorem claim_c3_counterexample :
    captureCommands "Tektronix" = ["HARDCopy:PORT ETHernet"] ∧
    ":DISPlay:DATA?" ∉ captureCommands "Tektronix" := by
  constructor
  · decide
  · decide

/-- C3 amended: for the Tektronix vendor tag the capture operation sends
only the Ethernet hardcopy-port configuration command (the generic
display-data query is never sent); for Keysight it sends the display-data
query with a format argument; for Rigol and unknown vendors it sends the
generic display-data query. -/
theorem claim_c3_vendor_commands (v : String) :
    captureCommands "Tektronix" = ["HARDCopy:PORT ETHernet"] ∧
    captureCommands "Keysight" = [":DISPlay:DATA? PNG"] ∧
    captureCommands "Rigol" = [":DISPlay:DATA?"] ∧
    (lowerString v ≠ "rigol" → lowerString v ≠ "keysight" →
      lowerString v ≠ "tektronix" → captureCommands v = [":DISPlay:DATA?"]) := by
  refine ⟨by decide, by decide, by decide, ?_⟩
  intro h1 h2 h3
  simp only [captureCommands, get_screenshot_command, if_neg h1, if_neg h2,
    if_neg h3]

theorem claim_c3_vendor_commands_witness :
    captureCommands "Siglent" = [":DISPlay:DATA?"] :=
  (claim_c3_vendor_commands "Siglent").2.2.2 (by decide) (by decide) (by decide)

/-- `OscilloscopeCapture.send_command` line-terminator step (osc/osc.py
lines 185–186): append a newline iff the command does not already end in
one (`command.endswith` checks the last character). -/
def terminateCommand (cmd : List Char) : List Char :=
  if cmd.getLast? = some '\n' then cmd else cmd ++ ['\n']

/-- The buffers handed to socket `send` calls by `send_command`: exactly
one call, with the whole terminated command (osc/osc.py line 187). -/
def send_command_buffers (cmd : List Char) : List (List Char) :=
  [terminateCommand cmd]

/-- Bytes actually transmitted when the kernel accepts `a` bytes of the
single `send` call: `socket.send` may transmit any nonempty prefix, and
the code ignores its return value, so nothing beyond that prefix is ever
written. -/
def send_command_transmitted (a : Nat) (cmd : List Char) : List Char :=
  (terminateCommand cmd).take a

/-- C4 as stated is false on the code: a partial write is not retried.
With the kernel accepting 3 bytes of the 6-byte terminated command
`*IDN?\n`, the bytes written are a proper prefix of the full sequence. -/
theorem claim_c4_counterexample :
    1 ≤ 3 ∧
    send_command_transmitted 3 ("*IDN?".data) ≠ terminateCommand ("*IDN?".data) := by
  constructor
  · decide
  · decide

/-- C4 amended: `send_command` appends a single trailing newline if one is
absent and passes the full resulting byte sequence to exactly one socket
`send` call; a partial write is not retried (the transmitted bytes are
whatever prefix the single call accepts). -/
theorem claim_c4_send_newline (cmd : List Char) :
    send_command_buffers cmd = [terminateCommand cmd] ∧
    (cmd.getLast? = some '\n' → terminateCommand cmd = cmd) ∧
    (cmd.getLast? ≠ some '\n' → terminateCommand cmd = cmd ++ ['\n']) ∧
    (terminateCommand cmd).getLast? = some '\n' ∧
    (∀ a, send_command_transmitted a cmd = (terminateCommand cmd).take a) := by
  refine ⟨rfl, ?_, ?_, ?_, fun a => rfl⟩
  · intro h
    simp [terminateCommand, h]
  · intro h
    simp [terminateCommand, h]
  · rw [terminateCommand]
    by_cases h : cmd.getLast? = some '\n'
    · rw [if_pos h]
      exact h
    · rw [if_neg h]
      exact List.getLast?_concat cmd

theorem claim_c4_send_newline_witness :
    terminateCommand ("*IDN?".data) = "*IDN?".data ++ ['\n'] ∧
    terminateCommand ("*IDN?\n".data) = "*IDN?\n".data :=
  ⟨(claim_c4_send_newline ("*IDN?".data)).2.2.1 (by decide),
   (claim_c4_send_newline ("*IDN?\n".data)).2.1 (by decide)⟩

/-- ASCII digit character of a single decimal digit. -/
def digitCh (d : Nat) : Char :=
  Char.ofNat (48 + d)

/-- Decimal representation of a natural number (big-endian character
list), as Python's string formatting produces it. -/
def decRepr (n : Nat) : List Char :=
  if n = 0 then ['0'] else ((Nat.digits 10 n).map digitCh).reverse

/-- Python `f"{n:02d}"`: the decimal representation left-padded with `'0'`
to at least two characters. -/
def pad2 (n : Nat) : List Char :=
  List.replicate (2 - (decRepr n).length) '0' ++ decRepr n

/-- `os.path.join(self.output_dir, f"{base_name}_{counter:02d}.{ext}")`
(osc/osc.py line 255) on a POSIX path. -/
def candidate (dir base ext : List Char) (c : Nat) : List Char :=
  dir ++ ('/' :: base) ++ ('_' :: pad2 c) ++ ('.' :: ext)

/-- Numeric value of a decimal character string (leading zeros ignored);
used only to prove that distinct counters give distinct candidates. -/
def valOf (cs : List Char) : Nat :=
  Nat.ofDigits 10 (cs.reverse.map (fun c => c.toNat - 48))

theorem ofDigits_replicate_zero (k : Nat) :
    Nat.ofDigits 10 (List.replicate k (0 : Nat)) = 0 := by
  induction k with
  | zero => simp [Nat.ofDigits]
  | succ k ih => simp [List.replicate_succ, Nat.ofDigits_cons, ih]

theorem valOf_decRepr (n : Nat) : valOf (decRepr n) = n := by
  by_cases h : n = 0
  · subst h
    decide
  · rw [decRepr, if_neg h, valOf, List.reverse_reverse, List.map_map]
    have hdec : ∀ d, d < 10 → ((fun c => c.toNat - 48) ∘ digitCh) d = d := by decide
    have hmap : (Nat.digits 10 n).map ((fun c => c.toNat - 48) ∘ digitCh) =
        Nat.digits 10 n := by
      conv_rhs => rw [← List.map_id (Nat.digits 10 n)]
      apply List.map_congr_left
      intro d hd
      exact hdec d (Nat.digits_lt_base (by norm_num) hd)
    rw [hmap, Nat.ofDigits_digits]

theorem valOf_pad (k : Nat) (cs : List Char) :
    valOf (List.replicate k '0' ++ cs) = valOf cs := by
  rw [valOf, valOf, List.reverse_append, List.reverse_replicate, List.map_append,
    List.map_replicate]
  have h0 : ('0'.toNat - 48) = 0 := by decide
  rw [h0, Nat.ofDigits_append, ofDigits_replicate_zero, mul_zero, add_zero]

theorem pad2_inj : Function.Injective pad2 := by
  intro a b h
  have ha : valOf (pad2 a) = a := by rw [pad2, valOf_pad, valOf_decRepr]
  have hb : valOf (pad2 b) = b := by rw [pad2, valOf_pad, valOf_decRepr]
  exact ha.symm.trans (by rw [h, hb])

theorem candidate_inj (dir base ext : List Char) :
    Function.Injective (candidate dir base ext) := by
  intro a b h
  unfold candidate at h
  have h1 := List.append_cancel_right h
  have h2 := List.append_cancel_left h1
  injection h2 with _ h3
  exact pad2_inj h3

/-- The probing loop of `get_screenshot` (osc/osc.py lines 253–259):
candidates `{base}_{counter:02d}.{ext}` for `counter = c, c+1, …` are
tested against the set of existing paths until a free one is found.
`fuel` bounds the recursion for the embedding; `allocate` below supplies
enough fuel for the loop always to find a free name (proved in
`allocate_some`), so the `none` case mirrors no behaviour of the
unbounded `while True`. -/
def allocFrom (fs : List (List Char)) (dir base ext : List Char) :
    Nat → Nat → Option (Nat × List Char)
  | 0, _ => none
  | fuel + 1, c =>
    if candidate dir base ext c ∈ fs then allocFrom fs dir base ext fuel (c + 1)
    else some (c, candidate dir base ext c)

/-- Filename allocation: probe counters from 1 upward over the existing
paths `fs`. -/
def allocate (fs : List (List Char)) (dir base ext : List Char) :
    Option (Nat × List Char) :=
  allocFrom fs dir base ext (fs.length + 1) 1

theorem allocFrom_spec (fs : List (List Char)) (dir base ext : List Char) :
    ∀ fuel c, (∃ j, c ≤ j ∧ j < c + fuel ∧ candidate dir base ext j ∉ fs) →
      ∃ m, allocFrom fs dir base ext fuel c = some (m, candidate dir base ext m) ∧
        candidate dir base ext m ∉ fs ∧ c ≤ m ∧
        ∀ i, c ≤ i → i < m → candidate dir base ext i ∈ fs := by
  intro fuel
  induction fuel with
  | zero =>
    intro c ⟨j, hj1, hj2, _⟩
    omega
  | succ fuel ih =>
    intro c ⟨j, hj1, hj2, hjfree⟩
    rw [allocFrom]
    by_cases hc : candidate dir base ext c ∈ fs
    · rw [if_pos hc]
      have hjc : j ≠ c := by
        intro h
        rw [h] at hjfree
        exact hjfree hc
      obtain ⟨m, hm, hfree, hle, hall⟩ := ih (c + 1) ⟨j, by omega, by omega, hjfree⟩
      refine ⟨m, hm, hfree, by omega, ?_⟩
      intro i hi1 hi2
      rcases Nat.eq_or_lt_of_le hi1 with h | h
      · rw [← h]
        exact hc
      · exact hall i h hi2
    · rw [if_neg hc]
      exact ⟨c, rfl, hc, le_refl c, fun i hi1 hi2 => absurd hi1 (by omega)⟩

theorem exists_free (fs : List (List Char)) (dir base ext : List Char) :
    ∃ j, 1 ≤ j ∧ j < 1 + (fs.length + 1) ∧ candidate dir base ext j ∉ fs := by
  by_contra hcon
  push_neg at hcon
  have hall : ∀ j, 1 ≤ j → j < fs.length + 2 → candidate dir base ext j ∈ fs := by
    intro j h1 h2
    exact hcon j h1 (by omega)
  set l := (List.range (fs.length + 1)).map (fun i => candidate dir base ext (i + 1))
    with hl
  have hnd : l.Nodup := by
    apply List.Nodup.map
    · intro a b hab
      have := candidate_inj dir base ext hab
      omega
    · exact List.nodup_range _
  have hlen : l.length = fs.length + 1 := by simp [hl]
  have hsub : l.toFinset ⊆ fs.toFinset := by
    intro x hx
    rw [List.mem_toFinset] at hx ⊢
    rw [hl, List.mem_map] at hx
    obtain ⟨i, hi, hxi⟩ := hx
    rw [List.mem_range] at hi
    rw [← hxi]
    exact hall (i + 1) (by omega) (by omega)
  have h1 : l.toFinset.card = fs.length + 1 := by
    rw [List.toFinset_card_of_nodup hnd, hlen]
  have h2 : fs.toFinset.card ≤ fs.length := List.toFinset_card_le fs
  have := Finset.card_le_card hsub
  omega

/-- Allocation always succeeds within `fs.length + 1` probes, returns the
candidate of the least free counter, and that path is not in `fs`. -/
theorem allocate_some (fs : List (List Char)) (dir base ext : List Char) :
    ∃ m, allocate fs dir base ext = some (m, candidate dir base ext m) ∧
      candidate dir base ext m ∉ fs ∧ 1 ≤ m ∧
      ∀ i, 1 ≤ i → i < m → candidate dir base ext i ∈ fs := by
  exact allocFrom_spec fs dir base ext (fs.length + 1) 1 (exists_free fs dir base ext)

/-- Filesystem operations of the save step, in program order. -/
inductive FsOp
  | mkdirs (dir : List Char)
  | probe (path : List Char)
  | writeFile (path : List Char) (content : List Nat)
deriving DecidableEq

/-- The capture tail of `get_screenshot` (osc/osc.py lines 214–263) over
the modelled socket stream and filesystem, for the `filename=None` path:
read the framed payload; on success create the output directory
(`os.makedirs(..., exist_ok=True)`), probe `{base}_{counter:02d}.{ext}`
for the first free counter, and write the payload there.  Returns the
outcome together with the ordered list of filesystem operations
performed; an error before the full payload arrives performs none. -/
def get_screenshot_run (sched : Nat → Nat) (data : List Nat)
    (fs : List (List Char)) (dir base ext : List Char) :
    Except String (List Char) × List FsOp :=
  match readFrame sched data with
  | .error e => (.error e, [])
  | .ok (_, image, _) =>
    match allocate fs dir base ext with
    | none => (.error "unreachable", [FsOp.mkdirs dir])
    | some (c, path) =>
      (.ok path,
        FsOp.mkdirs dir ::
          ((List.range c).map (fun i => FsOp.probe (candidate dir base ext (i + 1))) ++
            [FsOp.writeFile path image]))

theorem digitsVal_replicate_48 (d : Nat) :
    digitsVal (List.replicate d 48) = 0 := by
  have h : ∀ k, (List.replicate k 48).foldl (fun a b => a * 10 + (b - 48)) 0 = 0 := by
    intro k
    induction k with
    | zero => rfl
    | succ k ih => simpa [List.replicate_succ] using ih
  exact h d

/-- C7: Filename allocation probes `directory/{base}_{counter:02}.{ext}`
for `counter = 1, 2, 3, …` and returns the first path that does not exist
at the moment of the check, so the returned path never refers to an
already-existing file; in an empty directory the first allocation uses
counter 01 and, with that file present, the next allocation uses counter
02; and the destination directory is created before any probing. -/
theorem claim_c7_filename_allocation (fs : List (List Char))
    (dir base ext : List Char) :
    (∃ c p, allocate fs dir base ext = some (c, p) ∧
      p = candidate dir base ext c ∧ p ∉ fs ∧ 1 ≤ c ∧
      ∀ j, 1 ≤ j → j < c → candidate dir base ext j ∈ fs) ∧
    allocate [] dir base ext = some (1, candidate dir base ext 1) ∧
    allocate [candidate dir base ext 1] dir base ext =
      some (2, candidate dir base ext 2) ∧
    (∀ sched data L image rest, readFrame sched data = .ok (L, image, rest) →
      (get_screenshot_run sched data fs dir base ext).2.head? =
        some (FsOp.mkdirs dir)) := by
  refine ⟨?_, ?_, ?_, ?_⟩
  · obtain ⟨m, hm, hfree, hle, hall⟩ := allocate_some fs dir base ext
    exact ⟨m, candidate dir base ext m, hm, rfl, hfree, hle, hall⟩
  · rw [allocate]
    simp only [List.length_nil, Nat.zero_add]
    rw [allocFrom]
    rw [if_neg (by simp)]
  · rw [allocate]
    simp only [List.length_cons, List.length_nil]
    rw [allocFrom]
    rw [if_pos (by simp)]
    rw [allocFrom]
    rw [if_neg]
    simp only [List.mem_singleton]
    intro h
    have := candidate_inj dir base ext h
    omega
  · intro sched data L image rest hok
    simp only [get_screenshot_run, hok]
    obtain ⟨m, hm, _, _, _⟩ := allocate_some fs dir base ext
    rw [hm]
    rfl

theorem claim_c7_filename_allocation_witness :
    allocate [] ['t'] ['b'] ['e'] = some (1, candidate ['t'] ['b'] ['e'] 1) ∧
    (get_screenshot_run (fun _ => 1) (35 :: (48 + 1) :: ([48] ++ []))
        [] ['t'] ['b'] ['e']).2.head? = some (FsOp.mkdirs ['t']) :=
  ⟨(claim_c7_filename_allocation [] ['t'] ['b'] ['e']).2.1,
   (claim_c7_filename_allocation [] ['t'] ['b'] ['e']).2.2.2 (fun _ => 1) _ _ _ _
     (readFrame_valid (fun _ => 1) 1 [48] [] (by decide) (by decide) (by decide)
       (by decide) (by decide))⟩

/-- C9: If the capture exchange fails before the full declared payload has
been received (missing marker, invalid length digit, truncated or closed
stream), `get_screenshot` performs no filename allocation and writes no
output file: the filesystem-operation trace is empty and the error is
propagated. -/
theorem claim_c9_no_write_on_error (sched : Nat → Nat) (data : List Nat)
    (fs : List (List Char)) (dir base ext : List Char) (e : String)
    (herr : readFrame sched data = .error e) :
    get_screenshot_run sched data fs dir base ext = (.error e, []) := by
  simp only [get_screenshot_run, herr]

theorem claim_c9_no_write_on_error_witness :
    get_screenshot_run (fun _ => 1) [] [] ['t'] ['b'] ['e'] =
      (.error "Connection closed before header", []) :=
  claim_c9_no_write_on_error (fun _ => 1) [] [] ['t'] ['b'] ['e']
    "Connection closed before header"
    (by simp only [readFrame,
      recvLoop_nil (fun _ => 1) 2 (by decide) "Connection closed before header"
        0 2 (by decide)])

/-- C10: A frame declaring length zero (marker `#`, a nonzero digit count
`d`, and `d` length digits all `0`) is accepted: the payload-receive loop
is skipped, the payload is empty, and a zero-byte output file is written
and its path returned. -/
theorem claim_c10_zero_length_frame (sched : Nat → Nat) (d : Nat)
    (rest : List Nat) (fs : List (List Char)) (dir base ext : List Char)
    (hd1 : 1 ≤ d) (hd9 : d ≤ 9) :
    readFrame sched (35 :: (48 + d) :: (List.replicate d 48 ++ rest)) =
      .ok (0, [], rest) ∧
    ∃ c path, allocate fs dir base ext = some (c, path) ∧
      get_screenshot_run sched (35 :: (48 + d) :: (List.replicate d 48 ++ rest))
          fs dir base ext =
        (.ok path, FsOp.mkdirs dir ::
          ((List.range c).map (fun i => FsOp.probe (candidate dir base ext (i + 1))) ++
            [FsOp.writeFile path []])) := by
  have hframe : readFrame sched (35 :: (48 + d) :: (List.replicate d 48 ++ rest)) =
      .ok (0, [], rest) := by
    have h := readFrame_valid sched d (List.replicate d 48) rest hd1 hd9
      (by simp) (by
        intro b hb
        have := List.eq_of_mem_replicate hb
        omega)
      (by rw [digitsVal_replicate_48]; omega)
    rw [h, digitsVal_replicate_48]
    simp
  refine ⟨hframe, ?_⟩
  obtain ⟨m, hm, _, _, _⟩ := allocate_some fs dir base ext
  refine ⟨m, candidate dir base ext m, hm, ?_⟩
  simp only [get_screenshot_run, hframe, hm]

theorem claim_c10_zero_length_frame_witness :
    readFrame (fun _ => 1) (35 :: (48 + 1) :: (List.replicate 1 48 ++ [7])) =
      .ok (0, [], [7]) ∧
    ∃ c path, allocate [] ['t'] ['b'] ['e'] = some (c, path) ∧
      get_screenshot_run (fun _ => 1) (35 :: (48 + 1) :: (List.replicate 1 48 ++ [7]))
          [] ['t'] ['b'] ['e'] =
        (.ok path, FsOp.mkdirs ['t'] ::
          ((List.range c).map (fun i => FsOp.probe (candidate ['t'] ['b'] ['e'] (i + 1))) ++
            [FsOp.writeFile path []])) :=
  claim_c10_zero_length_frame (fun _ => 1) 1 [7] [] ['t'] ['b'] ['e']
    (by decide) (by decide)

/-- Python whitespace, as `str.strip()` removes it (ASCII range; ARP table
text is ASCII). -/
def isPySpace (c : Char) : Bool :=
  c = ' ' || c = '\t' || c = '\n' || c = '\r' || c = '\x0b' || c = '\x0c'

/-- Python `line.strip()`. -/
def stripChars (l : List Char) : List Char :=
  ((l.dropWhile isPySpace).reverse.dropWhile isPySpace).reverse

/-- Does `p` occur at the start of the second list? -/
def startsWithChars : List Char → List Char → Bool
  | [], _ => true
  | _ :: _, [] => false
  | p :: ps, c :: cs => p = c && startsWithChars ps cs

/-- Python substring test `p in s`. -/
def containsSub (p : List Char) : List Char → Bool
  | [] => p.isEmpty
  | c :: rest => startsWithChars p (c :: rest) || containsSub p rest

/-- The character class `[0-9a-f]` of the MAC patterns (they run on the
lowercased line). -/
def isHexLowerCh (c : Char) : Bool :=
  ('0' ≤ c && c ≤ '9') || ('a' ≤ c && c ≤ 'f')

/-- The character class `[0-9]`. -/
def isDigitCh (c : Char) : Bool :=
  '0' ≤ c && c ≤ '9'

/-- Try the fixed 17-character pattern `([0-9a-f]{2}X){5}[0-9a-f]{2}`
(with `X` the separator class) at the start of `l`; return the matched
characters. -/
def matchMacAt (sepOk : Char → Bool) (l : List Char) : Option (List Char) :=
  match l with
  | a1 :: a2 :: s1 :: b1 :: b2 :: s2 :: c1 :: c2 :: s3 :: d1 :: d2 :: s4 ::
      e1 :: e2 :: s5 :: f1 :: f2 :: _ =>
    if isHexLowerCh a1 && isHexLowerCh a2 && sepOk s1 &&
       isHexLowerCh b1 && isHexLowerCh b2 && sepOk s2 &&
       isHexLowerCh c1 && isHexLowerCh c2 && sepOk s3 &&
       isHexLowerCh d1 && isHexLowerCh d2 && sepOk s4 &&
       isHexLowerCh e1 && isHexLowerCh e2 && sepOk s5 &&
       isHexLowerCh f1 && isHexLowerCh f2 then
      some [a1, a2, s1, b1, b2, s2, c1, c2, s3, d1, d2, s4, e1, e2, s5, f1, f2]
    else none
  | _ => none

/-- `re.search` of the MAC pattern: the match at the leftmost position. -/
def searchMac (sepOk : Char → Bool) : List Char → Option (List Char)
  | [] => none
  | c :: rest =>
    match matchMacAt sepOk (c :: rest) with
    | some m => some m
    | none => searchMac sepOk rest

/-- Maximal run of digits at the front, and the remainder. -/
def takeDigitsFrom (l : List Char) : List Char × List Char :=
  (l.takeWhile isDigitCh, l.dropWhile isDigitCh)

/-- Match `[0-9]+\.[0-9]+\.[0-9]+\.[0-9]+` at the start of `l`.  The digit
class cannot consume the literal dots (or anything after the pattern), so
the regex engine's greedy matching coincides with maximal munch here;
returns the matched characters and the remainder. -/
def matchIpAt (l : List Char) : Option (List Char × List Char) :=
  match takeDigitsFrom l with
  | (d1, r1) =>
    if d1 = [] then none
    else match r1 with
      | '.' :: r1t =>
        match takeDigitsFrom r1t with
        | (d2, r2) =>
          if d2 = [] then none
          else match r2 with
            | '.' :: r2t =>
              match takeDigitsFrom r2t with
              | (d3, r3) =>
                if d3 = [] then none
                else match r3 with
                  | '.' :: r3t =>
                    match takeDigitsFrom r3t with
                    | (d4, r4) =>
                      if d4 = [] then none
                      else some (d1 ++ '.' :: d2 ++ '.' :: d3 ++ '.' :: d4, r4)
                  | _ => none
            | _ => none
      | _ => none

/-- The Windows-branch IP extraction
`re.search(r'^([0-9]+\.[0-9]+\.[0-9]+\.[0-9]+)', line.strip())`: the
dotted-quad pattern anchored at the start; `group(1)`. -/
def ipAtStart (l : List Char) : Option (List Char) :=
  (matchIpAt l).map Prod.fst

/-- The Unix-branch IP extraction
`re.search(r'\(([0-9]+\.[0-9]+\.[0-9]+\.[0-9]+)\)', line)`: the leftmost
`(` followed by the dotted quad and `)`; `group(1)`. -/
def searchParenIp : List Char → Option (List Char)
  | [] => none
  | c :: rest =>
    if c = '(' then
      match matchIpAt rest with
      | some (ip, ')' :: _) => some ip
      | _ => searchParenIp rest
    else searchParenIp rest

/-- `mac_match.group().replace('-', '').replace(':', '').lower()`. -/
def stripSeps (m : List Char) : List Char :=
  (m.filter (fun c => !(c == '-' || c == ':'))).map charLower

/-- Shared row shape of both branches of `find_ip_by_mac`: eligible-marker
test, first MAC-pattern match, separator-stripped comparison against the
target, then IP extraction. -/
def rowShape (marker : Bool) (found : Option (List Char)) (target : List Char)
    (ipOf : Option (List Char)) : Option (List Char) :=
  if marker then
    match found with
    | some m =>
      if stripSeps m = target then
        match ipOf with
        | some ip => some ip
        | none => none
      else none
    | none => none
  else none

/-- One row of the Windows branch of `find_ip_by_mac` (osc/osc.py lines
126–136): rows containing `dynamic` in the lowercased line, the first
hyphen-separated MAC of the lowercased line, and the IP as the leading
dotted quad of the stripped line. -/
def rowIpWindows (target line : List Char) : Option (List Char) :=
  rowShape (containsSub ("dynamic".data) (line.map charLower))
    (searchMac (fun c => c == '-') (line.map charLower)) target
    (ipAtStart (stripChars line))

/-- One row of the Unix branch of `find_ip_by_mac` (osc/osc.py lines
137–147): rows containing `ether` in the lowercased line, the first
colon-or-hyphen-separated MAC of the lowercased line, and the IP as the
first parenthesized dotted quad of the original line. -/
def rowIpUnix (target line : List Char) : Option (List Char) :=
  rowShape (containsSub ("ether".data) (line.map charLower))
    (searchMac (fun c => c == ':' || c == '-') (line.map charLower)) target
    (searchParenIp line)

/-- Platform dispatch of `find_ip_by_mac`'s row handling. -/
def rowIp (isWindows : Bool) (target line : List Char) : Option (List Char) :=
  if isWindows then rowIpWindows target line else rowIpUnix target line

/-- The `for line in arp_output.split('\n')` scan: first row whose
handling returns an IP. -/
def firstRowIp (isWindows : Bool) (target : List Char) :
    List (List Char) → Option (List Char)
  | [] => none
  | line :: rest =>
    match rowIp isWindows target line with
    | some ip => some ip
    | none => firstRowIp isWindows target rest

/-- `OscilloscopeCapture.find_ip_by_mac` (osc/osc.py lines 118–152):
lowercase the target, split the `arp -a` output into lines and return the
first matching row's IP. -/
def find_ip_by_mac (isWindows : Bool) (mac arpOutput : List Char) :
    Option (List Char) :=
  firstRowIp isWindows (mac.map charLower) (arpOutput.splitOn '\n')

/-- A row yields an IP exactly when it is marker-eligible, carries a MAC
pattern match whose separator-stripped, case-folded form equals the
target, and its IP pattern matches. -/
theorem rowShape_eq_some (marker : Bool) (found : Option (List Char))
    (target : List Char) (ipOf : Option (List Char)) (ip : List Char) :
    rowShape marker found target ipOf = some ip ↔
      marker = true ∧ ∃ m, found = some m ∧ stripSeps m = target ∧
        ipOf = some ip := by
  cases marker with
  | false => simp [rowShape]
  | true =>
    cases found with
    | none => simp [rowShape]
    | some m =>
      by_cases hst : stripSeps m = target
      · cases ipOf with
        | none => simp [rowShape, hst]
        | some ip0 => simp [rowShape, hst, eq_comm]
      · simp [rowShape, hst]

/-- The scan returns `some ip` exactly when some row yields `ip` and all
earlier rows yield nothing: first match wins, top-to-bottom. -/
theorem firstRowIp_eq_some (isW : Bool) (target : List Char) :
    ∀ lines ip, firstRowIp isW target lines = some ip ↔
      ∃ pre line post, lines = pre ++ line :: post ∧
        rowIp isW target line = some ip ∧
        ∀ l ∈ pre, rowIp isW target l = none := by
  intro lines
  induction lines with
  | nil =>
    intro ip
    rw [firstRowIp]
    constructor
    · intro h
      exact absurd h (by simp)
    · rintro ⟨pre, line, post, heq, -, -⟩
      exact absurd heq.symm (by simp)
  | cons l ls ih =>
    intro ip
    rw [firstRowIp]
    cases h : rowIp isW target l with
    | some ip0 =>
      constructor
      · intro he
        refine ⟨[], l, ls, rfl, ?_, by simp⟩
        rw [h]
        simpa using he
      · rintro ⟨pre, line, post, heq, hline, hpre⟩
        cases pre with
        | nil =>
          simp only [List.nil_append, List.cons.injEq] at heq
          rw [← heq.1] at hline
          simpa using h.symm.trans hline
        | cons p ps =>
          simp only [List.cons_append, List.cons.injEq] at heq
          have := hpre p (by simp)
          rw [← heq.1] at this
          rw [this] at h
          simp at h
    | none =>
      rw [ih ip]
      constructor
      · rintro ⟨pre, line, post, heq, hline, hpre⟩
        refine ⟨l :: pre, line, post, by rw [heq]; rfl, hline, ?_⟩
        intro x hx
        rcases List.mem_cons.mp hx with hxl | hxp
        · rw [hxl]
          exact h
        · exact hpre x hxp
      · rintro ⟨pre, line, post, heq, hline, hpre⟩
        cases pre with
        | nil =>
          simp only [List.nil_append, List.cons.injEq] at heq
          rw [← heq.1] at hline
          rw [h] at hline
          simp at hline
        | cons p ps =>
          simp only [List.cons_append, List.cons.injEq] at heq
          refine ⟨ps, line, post, heq.2, hline, ?_⟩
          intro x hx
          exact hpre x (by simp [hx])

/-- C5: When resolving by hardware address, a neighbor/ARP-table row
matches exactly when it is platform-eligible (a `dynamic` row with a
hyphen-separated MAC and leading IP on Windows tables, an `ether` row
with a colon/hyphen-separated MAC and parenthesized IP on Unix tables)
and the row's hardware address, after stripping separator characters and
case-folding, equals the (case-folded) target; scanning proceeds
top-to-bottom and the first matching row's IP is returned. -/
theorem claim_c5_arp_match (isWindows : Bool) (mac arpOutput : List Char) :
    (∀ ip, find_ip_by_mac isWindows mac arpOutput = some ip ↔
      ∃ pre line post, arpOutput.splitOn '\n' = pre ++ line :: post ∧
        rowIp isWindows (mac.map charLower) line = some ip ∧
        ∀ l ∈ pre, rowIp isWindows (mac.map charLower) l = none) ∧
    (∀ line ip, rowIpWindows (mac.map charLower) line = some ip ↔
      (containsSub ("dynamic".data) (line.map charLower) = true ∧
       ∃ m, searchMac (fun c => c == '-') (line.map charLower) = some m ∧
         stripSeps m = mac.map charLower ∧
         ipAtStart (stripChars line) = some ip)) ∧
    (∀ line ip, rowIpUnix (mac.map charLower) line = some ip ↔
      (containsSub ("ether".data) (line.map charLower) = true ∧
       ∃ m, searchMac (fun c => c == ':' || c == '-') (line.map charLower) = some m ∧
         stripSeps m = mac.map charLower ∧
         searchParenIp line = some ip)) := by
  refine ⟨?_, ?_, ?_⟩
  · intro ip
    rw [find_ip_by_mac, firstRowIp_eq_some]
  · intro line ip
    rw [rowIpWindows, rowShape_eq_some]
  · intro line ip
    rw [rowIpUnix, rowShape_eq_some]

theorem claim_c5_arp_match_witness :
    find_ip_by_mac false ("aabbccddeeff".data)
        ("scope (192.168.1.50) at aa:bb:cc:dd:ee:ff [ether] on eth0".data) =
      some ("192.168.1.50".data) :=
  ((claim_c5_arp_match false ("aabbccddeeff".data)
      ("scope (192.168.1.50) at aa:bb:cc:dd:ee:ff [ether] on eth0".data)).1
    ("192.168.1.50".data)).mpr
    ⟨[], ("scope (192.168.1.50) at aa:bb:cc:dd:ee:ff [ether] on eth0".data), [],
      by decide, by decide, by simp⟩

/-- Outcomes of address resolution in `connect`. -/
inductive ResolutionError
  | macNotFound
  | noAddressSource
deriving DecidableEq

/-- The address-resolution step of `OscilloscopeCapture.connect`
(osc/osc.py lines 156–164): a non-empty explicit IP is used unchanged;
else, with a non-empty MAC, the IP is looked up in the ARP table (the
scan finding nothing is the MAC-not-found outcome, `connect` returns
`False`); with neither, the no-address-source outcome.  The empty list
models Python's falsy `None`/empty-string address fields (the constructor
turns empty strings into `None`). -/
def resolveAddress (ip mac : List Char) (isWindows : Bool)
    (arpOutput : List Char) : Except ResolutionError (List Char) :=
  if ip ≠ [] then .ok ip
  else if mac ≠ [] then
    match find_ip_by_mac isWindows mac arpOutput with
    | some a => .ok a
    | none => .error .macNotFound
  else .error .noAddressSource

/-- The addresses `connect` actually opens a socket to: on a resolution
failure it returns `False` before `socket.socket` is ever reached, so no
connection is attempted. -/
def connectAttempts (ip mac : List Char) (isWindows : Bool)
    (arpOutput : List Char) : List (List Char) :=
  match resolveAddress ip mac isWindows arpOutput with
  | .ok a => [a]
  | .error _ => []

/-- C6: A present, non-empty explicit IP is used unchanged and the ARP
table is never consulted (the result is the same for every table); with
only a MAC and a scan that finds no match, resolution fails with the
MAC-not-found outcome and no connection is attempted; with neither,
resolution fails with the no-address-source outcome and no connection is
attempted. -/
theorem claim_c6_resolution (ip mac : List Char) (isWindows : Bool)
    (arpOutput : List Char) :
    (ip ≠ [] → resolveAddress ip mac isWindows arpOutput = .ok ip ∧
      ∀ arp2, resolveAddress ip mac isWindows arp2 =
        resolveAddress ip mac isWindows arpOutput) ∧
    (ip = [] → mac ≠ [] → find_ip_by_mac isWindows mac arpOutput = none →
      resolveAddress ip mac isWindows arpOutput = .error .macNotFound ∧
      connectAttempts ip mac isWindows arpOutput = []) ∧
    (ip = [] → mac = [] →
      resolveAddress ip mac isWindows arpOutput = .error .noAddressSource ∧
      connectAttempts ip mac isWindows arpOutput = []) := by
  refine ⟨?_, ?_, ?_⟩
  · intro hip
    constructor
    · rw [resolveAddress, if_pos hip]
    · intro arp2
      rw [resolveAddress, if_pos hip, resolveAddress, if_pos hip]
  · intro hip hmac hfind
    have hres : resolveAddress ip mac isWindows arpOutput = .error .macNotFound := by
      rw [resolveAddress, if_neg (by simp [hip]), if_pos hmac, hfind]
    exact ⟨hres, by rw [connectAttempts, hres]⟩
  · intro hip hmac
    have hres : resolveAddress ip mac isWindows arpOutput =
        .error .noAddressSource := by
      rw [resolveAddress, if_neg (by simp [hip]), if_neg (by simp [hmac])]
    exact ⟨hres, by rw [connectAttempts, hres]⟩

theorem claim_c6_resolution_witness :
    resolveAddress ("10.0.0.1".data) ("aabb".data) false [] =
      .ok ("10.0.0.1".data) ∧
    resolveAddress [] ("aabb".data) false [] = .error .macNotFound ∧
    resolveAddress [] [] false [] = .error .noAddressSource :=
  ⟨((claim_c6_resolution ("10.0.0.1".data) ("aabb".data) false []).1
      (by decide)).1,
   ((claim_c6_resolution [] ("aabb".data) false []).2.1 rfl (by decide)
      (by decide)).1,
   ((claim_c6_resolution [] [] false []).2.2 rfl rfl).1⟩

/-- The socket field of an `OscilloscopeCapture`; `none` models Python
`None`. -/
structure ScopeState where
  sock : Option Nat
deriving DecidableEq

/-- Observable socket events. -/
inductive SockEv
  | close (id : Nat)
deriving DecidableEq

/-- `OscilloscopeCapture.disconnect` (osc/osc.py lines 176–180): close and
clear the socket if one is present, else do nothing.  The function is
total: on the already-closed path the `if self.sock:` guard skips the
close, so no exception can arise. -/
def disconnect (st : ScopeState) : ScopeState × List SockEv :=
  match st.sock with
  | some id => (⟨none⟩, [SockEv.close id])
  | none => (st, [])

/-- The socket events of one `main` capture run (osc/osc.py lines
366–374): whatever the `try` body does — `connect` returning `False`,
`get_screenshot` succeeding, or any raised error landing in the `except`
arm — the `finally` arm runs `disconnect` exactly once; no other code
closes the socket. -/
def mainCloseEvents (connected : Bool) (st : ScopeState)
    (shot : Except String (List Char)) : List SockEv :=
  if connected then
    match shot with
    | .ok _ => (disconnect st).2
    | .error _ => (disconnect st).2
  else (disconnect st).2

/-- C8: A capture run that reaches a connected session (a live socket
`id`) emits exactly one close event for it on the way out, whether the
run succeeds or fails; and closing an already-closed session is a no-op
that never raises. -/
theorem claim_c8_session_closed (id : Nat) (connected : Bool)
    (shot : Except String (List Char)) (st : ScopeState) :
    mainCloseEvents connected ⟨some id⟩ shot = [SockEv.close id] ∧
    disconnect ((disconnect st).1) = ((disconnect st).1, []) ∧
    disconnect ⟨none⟩ = (⟨none⟩, []) := by
  refine ⟨?_, ?_, rfl⟩
  · cases connected with
    | false => rfl
    | true =>
      cases shot with
      | ok v => rfl
      | error e => rfl
  · match st with
    | ⟨some i⟩ => rfl
    | ⟨none⟩ => rfl

end NinjaTools
